import Mathlib

/-!
Shallow embedding of the `cosmwasm-custom-decimal` crate (src/lib.rs, src/ops.rs,
src/serde_impl.rs).

`Decimal<D>` stores its value as a `Uint128` of "atomics" where `1.0 = 10^D`.
We embed atomics as `Nat` together with the explicit bound `a < 2^128`; the
double-width `Uint256` intermediates are `Nat` with explicit `< 2^256` checks.

Rust operations that can panic (operator arithmetic via `expect`, unchecked
`u128` multiplication under the overflow checks that CosmWasm builds enable,
`Uint128` operator overflow) are modelled as `Option`, with `none` standing for
the panic.  Checked operations return `Option` exactly as in the source, and
fallible parsing returns `Except` for the recoverable error path.

Strings are modelled as `List Char`; `parseU128` models Rust's
`str::parse::<u128>()` (optional single leading `'+'`, then one or more ASCII
digits, value must fit in 128 bits).
-/

/-- `Uint128` overflow bound: `2^128`. -/
def u128Bound : Nat := 2 ^ 128

/-- `Uint256` overflow bound: `2^256`. -/
def u256Bound : Nat := 2 ^ 256

/-- src/lib.rs `pow10`: compute `10^exp` (const fn, exact — const evaluation
aborts compilation on overflow, so any instantiation that compiles computes
the exact power). -/
def pow10 (exp : Nat) : Nat := 10 ^ exp

/-- `Decimal::<D>::FRACTIONAL = pow10(D)`: the atomics value representing 1.0. -/
def FRACTIONAL (D : Nat) : Nat := pow10 D

/-- Unchecked `u128` multiplication (used by `from_str`'s integer-only branch and
the visitor): overflow is a panic under the overflow checks CosmWasm mandates. -/
def u128mul (a b : Nat) : Option Nat :=
  if a * b < u128Bound then some (a * b) else none

/-- `u128::checked_mul`. -/
def u128CheckedMul (a b : Nat) : Option Nat :=
  if a * b < u128Bound then some (a * b) else none

/-- `u128::checked_add`. -/
def u128CheckedAdd (a b : Nat) : Option Nat :=
  if a + b < u128Bound then some (a + b) else none

-- ========== Arithmetic core (src/lib.rs + src/ops.rs) ==========

/-- src/lib.rs `checked_add`: `self.0.checked_add(other.0)`. -/
def checked_add (a b : Nat) : Option Nat :=
  if a + b < u128Bound then some (a + b) else none

/-- src/ops.rs `add_impl`: `checked_add(...).expect(...)`; `none` is the panic. -/
def add_impl (a b : Nat) : Option Nat :=
  checked_add a b

/-- src/lib.rs `checked_sub`: `self.0.checked_sub(other.0)`. -/
def checked_sub (a b : Nat) : Option Nat :=
  if b ≤ a then some (a - b) else none

/-- src/ops.rs `sub_impl`: `checked_sub(...).expect(...)`; `none` is the panic. -/
def sub_impl (a b : Nat) : Option Nat :=
  checked_sub a b

/-- src/lib.rs `checked_mul`: `Uint256::from(a) * Uint256::from(b) / FRACTIONAL`,
narrowed back to `Uint128`. -/
def checked_mul (D a b : Nat) : Option Nat :=
  if a * b < u256Bound then
    if FRACTIONAL D = 0 then none
    else if a * b / FRACTIONAL D < u128Bound then some (a * b / FRACTIONAL D)
    else none
  else none

/-- src/lib.rs `checked_div`: `None` on zero divisor, otherwise
`Uint256::from(a) * FRACTIONAL / Uint256::from(b)` narrowed back. -/
def checked_div (D a b : Nat) : Option Nat :=
  if b = 0 then none
  else if a * FRACTIONAL D < u256Bound then
    if a * FRACTIONAL D / b < u128Bound then some (a * FRACTIONAL D / b)
    else none
  else none

/-- src/ops.rs `div_impl`: panics on zero divisor or overflow (`none`),
otherwise the same wide computation as `checked_div`. -/
def div_impl (D a b : Nat) : Option Nat :=
  if b = 0 then none
  else if a * FRACTIONAL D < u256Bound then
    if a * FRACTIONAL D / b < u128Bound then some (a * FRACTIONAL D / b)
    else none
  else none

/-- src/lib.rs `abs_diff`: `if self > other { self - other } else { other - self }`,
the subtraction going through the panicking `sub_impl`. -/
def abs_diff (a b : Nat) : Option Nat :=
  if b < a then sub_impl a b else sub_impl b a

-- ========== Construction (src/lib.rs) ==========

/-- src/lib.rs `percent`: `Uint128::from(x) * Uint128::from(FRACTIONAL / 100)`
(the `Uint128` operator panics on overflow). -/
def percent (D x : Nat) : Option Nat :=
  u128mul x (FRACTIONAL D / 100)

/-- src/lib.rs `permille`: `Uint128::from(x) * Uint128::from(FRACTIONAL / 1000)`. -/
def permille (D x : Nat) : Option Nat :=
  u128mul x (FRACTIONAL D / 1000)

/-- src/lib.rs `bps`: `Uint128::from(x) * Uint128::from(FRACTIONAL / 10000)`. -/
def bps (D x : Nat) : Option Nat :=
  u128mul x (FRACTIONAL D / 10000)

-- ========== Precision conversion (src/lib.rs) ==========

/-- src/lib.rs `to_precision::<D2>`: identity when `D = D2`, checked multiply by
`10^(D2-D)` (panic on overflow) when widening, truncating division when
narrowing. -/
def to_precision (D D2 a : Nat) : Option Nat :=
  if D = D2 then some a
  else if D < D2 then
    if a * pow10 (D2 - D) < u128Bound then some (a * pow10 (D2 - D)) else none
  else some (a / pow10 (D - D2))

-- ========== Decimal * Uint128 (src/ops.rs) ==========

/-- src/ops.rs `impl Mul<Uint128> for Decimal<D>`:
`Uint256::from(self.0) * Uint256::from(rhs) / FRACTIONAL`, narrowed to
`Uint128` (panic when the result exceeds the native width). -/
def mul_uint (D d n : Nat) : Option Nat :=
  if d * n < u256Bound then
    if FRACTIONAL D = 0 then none
    else if d * n / FRACTIONAL D < u128Bound then some (d * n / FRACTIONAL D)
    else none
  else none

/-- src/lib.rs `mul_uint_ceil`: `product = self * rhs`;
`floored = product / Uint128::one()`; round up when
`product % Uint128::one()` is non-zero. -/
def mul_uint_ceil (D d n : Nat) : Option Nat :=
  (mul_uint D d n).map fun product =>
    let floored := product / 1
    if product % 1 = 0 then floored else floored + 1

-- ========== Text codec support ==========

/-- Little-endian base-10 digits of `n`, with explicit structural fuel
(`fuel = n` always suffices since `n / 10 < n` for `n ≠ 0`). -/
def toDigitsRev : Nat → Nat → List Nat
  | 0, _ => []
  | fuel + 1, n => if n = 0 then [] else n % 10 :: toDigitsRev fuel (n / 10)

/-- Map a digit value `0..9` to its ASCII character. -/
def digitChar (d : Nat) : Char := Char.ofNat (48 + d)

/-- Decimal representation of a `u128` value, as Rust's `{}` formatting of an
unsigned integer produces it. -/
def repr10 (n : Nat) : List Char :=
  if n = 0 then ['0'] else ((toDigitsRev n n).map digitChar).reverse

/-- ASCII digit test. -/
def isDigit (c : Char) : Bool := 48 ≤ c.toNat && c.toNat ≤ 57

/-- Numeric value of a digit string (meaningful when all chars are digits). -/
def parseNatList (s : List Char) : Nat :=
  s.foldl (fun a c => a * 10 + (c.toNat - 48)) 0

/-- Rust's `u128` parser consumes an optional single leading `'+'`. -/
def stripPlus (s : List Char) : List Char :=
  match s with
  | [] => []
  | c :: rest => if c = '+' then rest else c :: rest

/-- Model of `str::parse::<u128>()`: optional leading `'+'`, then a non-empty
run of ASCII digits whose value fits in 128 bits. -/
def parseU128 (s : List Char) : Option Nat :=
  let t := stripPlus s
  if t ≠ [] ∧ t.all isDigit = true ∧ parseNatList t < u128Bound then
    some (parseNatList t)
  else none

/-- Rust's `s.split('.')`: always at least one (possibly empty) segment. -/
def splitDot : List Char → List (List Char)
  | [] => [[]]
  | c :: cs =>
    if c = '.' then [] :: splitDot cs
    else
      match splitDot cs with
      | [] => [[c]]
      | p :: ps => (c :: p) :: ps

/-- `format!("{:0>w}", _)`: left-pad with `'0'` to at least width `w`. -/
def padZeros (w : Nat) (s : List Char) : List Char :=
  List.replicate (w - s.length) '0' ++ s

/-- `str::trim_end_matches('0')`. -/
def trimZeros (s : List Char) : List Char :=
  (s.reverse.dropWhile (fun c => c == '0')).reverse

-- ========== Text codec (src/lib.rs Display / FromStr) ==========

/-- src/lib.rs `impl Display for Decimal<D>`: print the integer part alone when
the fractional remainder is zero, otherwise `integer.fraction` with the
remainder zero-padded to `D` digits and trailing zeros trimmed. -/
def to_string (D a : Nat) : List Char :=
  let integer := a / FRACTIONAL D
  let frac_part := a % FRACTIONAL D
  if frac_part = 0 then repr10 integer
  else repr10 integer ++ '.' :: trimZeros (padZeros D (repr10 frac_part))

/-- Error values produced by `FromStr::from_str` (the `ParseError` /
`Overflow` variants of `CustomDecimalError`, carrying the offending text). -/
inductive ParseErr where
  | invalidInt (s : List Char)
  | tooMany (len d : Nat)
  | invalidFrac (s : List Char)
  | overflow
  | invalidFormat (s : List Char)
deriving DecidableEq

/-- src/lib.rs `FromStr::from_str`.  Outer `none` is a panic (the unchecked
`integer * FRACTIONAL` of the integer-only branch, or the unchecked fractional
rescale); `Except.error` is the recoverable parse error. -/
def from_str (D : Nat) (s : List Char) : Option (Except ParseErr Nat) :=
  match splitDot s with
  | [p0] =>
    match parseU128 p0 with
    | none => some (Except.error (ParseErr.invalidInt p0))
    | some integer =>
      (u128mul integer (FRACTIONAL D)).map fun w => Except.ok w
  | [p0, p1] =>
    match parseU128 p0 with
    | none => some (Except.error (ParseErr.invalidInt p0))
    | some integer =>
      if D < p1.length then
        some (Except.error (ParseErr.tooMany p1.length D))
      else
        match parseU128 p1 with
        | none => some (Except.error (ParseErr.invalidFrac p1))
        | some fractional =>
          (u128mul fractional (pow10 (D - p1.length))).map fun scaled =>
            match (u128CheckedMul integer (FRACTIONAL D)).bind
                (fun i => u128CheckedAdd i scaled) with
            | none => Except.error ParseErr.overflow
            | some total => Except.ok total
  | _ => some (Except.error (ParseErr.invalidFormat s))

-- ========== Storage codec (src/serde_impl.rs) ==========

/-- src/serde_impl.rs: rescale a `D`-place fractional remainder to 18 places
(`fraction_d / pow10(D-18)` when `D >= 18`, else `fraction_d * pow10(18-D)`). -/
def frac18 (D r : Nat) : Nat :=
  if 18 ≤ D then r / pow10 (D - 18) else r * pow10 (18 - D)

/-- src/serde_impl.rs `impl Serialize for Decimal<D>`: integer alone when the
remainder is zero, otherwise `integer.fraction` with the remainder rescaled to
18 places, zero-padded to 18 digits and trailing zeros trimmed. -/
def serialize (D a : Nat) : List Char :=
  let integer := a / FRACTIONAL D
  let fraction_d := a % FRACTIONAL D
  if fraction_d = 0 then repr10 integer
  else
    repr10 integer ++ '.' :: trimZeros (padZeros 18 (repr10 (frac18 D fraction_d)))

/-- Error values produced by the storage-codec visitor (serde `E::custom`
messages, carrying the offending text). -/
inductive DeErr where
  | invalidInt (s : List Char)
  | invalidFrac (s : List Char)
  | overflow
  | invalidFormat (s : List Char)
deriving DecidableEq

/-- src/serde_impl.rs `DecimalVisitor::visit_str`.  Outer `none` is a panic
(the unchecked `integer * FRACTIONAL` of the integer-only branch, or the
unchecked short-fraction rescale); `Except.error` is the recoverable error. -/
def visit_str (D : Nat) (v : List Char) : Option (Except DeErr Nat) :=
  match splitDot v with
  | [p0] =>
    match parseU128 p0 with
    | none => some (Except.error (DeErr.invalidInt p0))
    | some integer =>
      (u128mul integer (FRACTIONAL D)).map fun w => Except.ok w
  | [p0, p1] =>
    match parseU128 p0 with
    | none => some (Except.error (DeErr.invalidInt p0))
    | some integer =>
      if p1.length ≤ D then
        match parseU128 p1 with
        | none => some (Except.error (DeErr.invalidFrac p1))
        | some frac =>
          (u128mul frac (pow10 (D - p1.length))).map fun fractional_value =>
            match (u128CheckedMul integer (FRACTIONAL D)).bind
                (fun i => u128CheckedAdd i fractional_value) with
            | none => Except.error DeErr.overflow
            | some total => Except.ok total
      else
        match parseU128 p1 with
        | none => some (Except.error (DeErr.invalidFrac p1))
        | some frac =>
          let fractional_value := frac / pow10 (p1.length - D)
          some (match (u128CheckedMul integer (FRACTIONAL D)).bind
              (fun i => u128CheckedAdd i fractional_value) with
            | none => Except.error DeErr.overflow
            | some total => Except.ok total)
  | _ => some (Except.error (DeErr.invalidFormat v))

-- ========== Helper lemmas ==========

lemma pow10_pos (e : Nat) : 0 < pow10 e := Nat.pos_pow_of_pos e (by norm_num)

lemma FRACTIONAL_pos (D : Nat) : 0 < FRACTIONAL D := pow10_pos D

-- ========== C10 ==========

/-- C10: `abs_diff` never panics and returns the absolute difference of the
atomics: the panicking subtraction's underflow branch is unreachable because
the larger operand is always the minuend. -/
theorem abs_diff_total (a b : Nat) : abs_diff a b = some (Nat.dist a b) := by
  unfold abs_diff sub_impl checked_sub
  rcases Nat.lt_or_ge b a with h | h
  · rw [if_pos h, if_pos (Nat.le_of_lt h), Nat.dist_comm,
      Nat.dist_eq_sub_of_le (Nat.le_of_lt h)]
  · rw [if_neg (Nat.not_lt.mpr h), if_pos h, Nat.dist_eq_sub_of_le h]

-- ========== C8 ==========

/-- C8: adding `Decimal::raw(a)` and `Decimal::raw(b)` succeeds iff `a + b`
fits the native 128-bit width, in which case the result is `raw(a+b)`;
`checked_add` returns `None` exactly on overflow and the operator form
(`add_impl`) panics in that case. -/
theorem add_raw_spec (a b : Nat) (ha : a < u128Bound) (hb : b < u128Bound) :
    (add_impl a b = some (a + b) ↔ a + b < u128Bound) ∧
    (add_impl a b = none ↔ u128Bound ≤ a + b) ∧
    checked_add a b = add_impl a b := by
  unfold add_impl checked_add
  refine ⟨?_, ?_, rfl⟩ <;> split_ifs with h <;> simp [h] <;> omega

/-- Witness for C8 at `a = 1_500_000`, `b = 2_500_000`. -/
theorem add_raw_spec_witness :
    (add_impl 1500000 2500000 = some (1500000 + 2500000) ↔
      1500000 + 2500000 < u128Bound) ∧
    (add_impl 1500000 2500000 = none ↔ u128Bound ≤ 1500000 + 2500000) ∧
    checked_add 1500000 2500000 = add_impl 1500000 2500000 :=
  add_raw_spec 1500000 2500000 (by decide) (by decide)

-- ========== C7 ==========

/-- C7: `checked_div` by zero returns `None` and the panicking division
operator aborts on a zero divisor; for a non-zero divisor the result is the
double-width `a * FRACTIONAL / b`, failing exactly when it does not fit the
native 128-bit width. -/
theorem div_spec (D a b : Nat) (ha : a < u128Bound) (hD : FRACTIONAL D < u128Bound) :
    checked_div D a 0 = none ∧
    div_impl D a 0 = none ∧
    (b ≠ 0 →
      checked_div D a b =
        (if a * FRACTIONAL D / b < u128Bound then some (a * FRACTIONAL D / b)
         else none)) ∧
    (b ≠ 0 → div_impl D a b = checked_div D a b) := by
  have hwide : a * FRACTIONAL D < u256Bound := by
    have h1 : a * FRACTIONAL D < u128Bound * u128Bound :=
      Nat.mul_lt_mul_of_lt_of_lt ha hD
    have h2 : u128Bound * u128Bound = u256Bound := by
      unfold u128Bound u256Bound
      rw [← pow_add]
    exact h2 ▸ h1
  refine ⟨by unfold checked_div; rw [if_pos rfl],
          by unfold div_impl; rw [if_pos rfl], ?_, ?_⟩
  · intro hb
    unfold checked_div
    rw [if_neg hb, if_pos hwide]
  · intro hb
    unfold div_impl checked_div
    rfl

/-- Witness for C7 at `D = 6`, `a = 3_000_000`, `b = 2_000_000`. -/
theorem div_spec_witness :
    checked_div 6 3000000 0 = none ∧
    div_impl 6 3000000 0 = none ∧
    (2000000 ≠ 0 →
      checked_div 6 3000000 2000000 =
        (if 3000000 * FRACTIONAL 6 / 2000000 < u128Bound then
          some (3000000 * FRACTIONAL 6 / 2000000)
         else none)) ∧
    (2000000 ≠ 0 → div_impl 6 3000000 2000000 = checked_div 6 3000000 2000000) :=
  div_spec 6 3000000 2000000 (by decide) (by decide)

-- ========== C5 ==========

/-- C5 counterexample: widening `Uint128::MAX` atomics from precision 0 to
precision 1 overflows and panics, so the round trip does not return the
original value. -/
theorem to_precision_roundtrip_cex :
    ¬ ((to_precision 0 1 (2 ^ 128 - 1)).bind (fun y => to_precision 1 0 y) =
        some (2 ^ 128 - 1)) := by
  decide

/-- C5 (amended): for `D2 ≥ D`, widening to `D2` and narrowing back to `D`
returns the original value, provided the widening multiplication
`a * 10^(D2-D)` fits the native 128-bit width (otherwise the widening
panics). -/
theorem to_precision_roundtrip (D D2 a : Nat) (h1 : D ≤ D2) (ha : a < u128Bound)
    (hw : a * pow10 (D2 - D) < u128Bound) :
    (to_precision D D2 a).bind (fun y => to_precision D2 D y) = some a := by
  rcases Nat.eq_or_lt_of_le h1 with rfl | hlt
  · simp [to_precision]
  · unfold to_precision
    rw [if_neg (Nat.ne_of_lt hlt), if_pos hlt, if_pos hw]
    show to_precision D2 D (a * pow10 (D2 - D)) = some a
    unfold to_precision
    rw [if_neg (Nat.ne_of_lt hlt).symm, if_neg (Nat.not_lt.mpr (Nat.le_of_lt hlt))]
    rw [Nat.mul_div_cancel a (pow10_pos (D2 - D))]

/-- Witness for C5's amended round trip at `D = 6`, `D2 = 9`, `a = 1_500_000`. -/
theorem to_precision_roundtrip_witness :
    (to_precision 6 9 1500000).bind (fun y => to_precision 9 6 y) = some 1500000 :=
  to_precision_roundtrip 6 9 1500000 (by decide) (by decide) (by decide)

-- ========== C3 ==========

/-- C3 counterexample: at precision `D = 1`, `FRACTIONAL / 100 = 0`, so
`percent(15)` produces 0 atomics while the claim's formula
`x * FRACTIONAL / 100` gives 1. -/
theorem percent_cex :
    percent 1 15 = some 0 ∧ 15 * FRACTIONAL 1 / 100 = 1 := by
  constructor
  · rfl
  · rfl

/-- C3 (amended): `percent`/`permille`/`bps` multiply by the pre-truncated
constant `FRACTIONAL / {100, 1000, 10000}` (panicking on `u128` overflow), so
the atomics equal `x * (FRACTIONAL / k)`; this coincides with the claim's
`x * FRACTIONAL / k` exactly when `D ≥ 2` / `D ≥ 3` / `D ≥ 4` respectively. -/
theorem percent_permille_bps_spec (D x : Nat) (hx : x < 2 ^ 64)
    (hp : x * (FRACTIONAL D / 100) < u128Bound)
    (hq : x * (FRACTIONAL D / 1000) < u128Bound)
    (hr : x * (FRACTIONAL D / 10000) < u128Bound) :
    percent D x = some (x * (FRACTIONAL D / 100)) ∧
    permille D x = some (x * (FRACTIONAL D / 1000)) ∧
    bps D x = some (x * (FRACTIONAL D / 10000)) ∧
    (2 ≤ D → x * (FRACTIONAL D / 100) = x * FRACTIONAL D / 100) ∧
    (3 ≤ D → x * (FRACTIONAL D / 1000) = x * FRACTIONAL D / 1000) ∧
    (4 ≤ D → x * (FRACTIONAL D / 10000) = x * FRACTIONAL D / 10000) := by
  have key : ∀ k e : Nat, (10 : Nat) ^ e ∣ FRACTIONAL D → e ≤ D → k = 10 ^ e →
      x * (FRACTIONAL D / k) = x * FRACTIONAL D / k := by
    intro k e hdvd _ hk
    subst hk
    exact (Nat.mul_div_assoc x hdvd).symm
  have hdvd : ∀ e : Nat, e ≤ D → (10 : Nat) ^ e ∣ FRACTIONAL D := by
    intro e he
    refine ⟨10 ^ (D - e), ?_⟩
    unfold FRACTIONAL pow10
    rw [← pow_add]
    congr 1
    omega
  refine ⟨?_, ?_, ?_, ?_, ?_, ?_⟩
  · unfold percent u128mul
    rw [if_pos hp]
  · unfold permille u128mul
    rw [if_pos hq]
  · unfold bps u128mul
    rw [if_pos hr]
  · intro h2
    exact key 100 2 (hdvd 2 h2) h2 (by norm_num)
  · intro h3
    exact key 1000 3 (hdvd 3 h3) h3 (by norm_num)
  · intro h4
    exact key 10000 4 (hdvd 4 h4) h4 (by norm_num)

/-- Witness for C3's amended statement at `D = 6`, `x = 50`. -/
theorem percent_permille_bps_spec_witness :
    percent 6 50 = some (50 * (FRACTIONAL 6 / 100)) ∧
    permille 6 50 = some (50 * (FRACTIONAL 6 / 1000)) ∧
    bps 6 50 = some (50 * (FRACTIONAL 6 / 10000)) ∧
    (2 ≤ 6 → 50 * (FRACTIONAL 6 / 100) = 50 * FRACTIONAL 6 / 100) ∧
    (3 ≤ 6 → 50 * (FRACTIONAL 6 / 1000) = 50 * FRACTIONAL 6 / 1000) ∧
    (4 ≤ 6 → 50 * (FRACTIONAL 6 / 10000) = 50 * FRACTIONAL 6 / 10000) :=
  percent_permille_bps_spec 6 50 (by decide) (by decide) (by decide) (by decide)

-- ========== C2 ==========

/-- C2: the ceiling variant never rounds up — its remainder test is
`product % Uint128::one()`, which is always zero.  At
`d = Decimal::<6>::raw(1)`, `n = 1` the wide product `1 * 1` is not an exact
multiple of `FRACTIONAL`, yet `mul_uint_ceil` returns the floor `0` instead of
the claimed `floor + 1 = 1`. -/
theorem mul_uint_ceil_no_round_up :
    mul_uint_ceil 6 1 1 = some 0 ∧
    (1 * 1) % FRACTIONAL 6 ≠ 0 ∧
    mul_uint_ceil 6 1 1 ≠ some (1 * 1 / FRACTIONAL 6 + 1) := by
  refine ⟨rfl, by decide, by decide⟩

-- ========== String machinery lemmas ==========

lemma digitChar_toNat {d : Nat} (h : d < 10) : (digitChar d).toNat = 48 + d := by
  interval_cases d <;> rfl

lemma isDigit_digitChar {d : Nat} (h : d < 10) : isDigit (digitChar d) = true := by
  interval_cases d <;> rfl

lemma digit_ne_dot {c : Char} (h : isDigit c = true) : c ≠ '.' := by
  intro hc
  rw [hc] at h
  exact absurd h (by decide)

lemma digit_ne_plus {c : Char} (h : isDigit c = true) : c ≠ '+' := by
  intro hc
  rw [hc] at h
  exact absurd h (by decide)

lemma foldl_parse_shift : ∀ (t : List Char) (a : Nat),
    List.foldl (fun x c => x * 10 + (c.toNat - 48)) a t
      = a * 10 ^ t.length + List.foldl (fun x c => x * 10 + (c.toNat - 48)) 0 t
  | [], a => by simp
  | c :: t, a => by
    simp only [List.foldl_cons, List.length_cons]
    rw [foldl_parse_shift t (a * 10 + (c.toNat - 48)),
      foldl_parse_shift t (0 * 10 + (c.toNat - 48))]
    ring

lemma parseNatList_append (s t : List Char) :
    parseNatList (s ++ t) = parseNatList s * 10 ^ t.length + parseNatList t := by
  unfold parseNatList
  rw [List.foldl_append]
  exact foldl_parse_shift t _

lemma parseNatList_replicate_zero : ∀ k : Nat, parseNatList (List.replicate k '0') = 0
  | 0 => rfl
  | k + 1 => by
    rw [List.replicate_succ', parseNatList_append, parseNatList_replicate_zero k]
    decide

lemma parseNatList_padZeros (w : Nat) (s : List Char) :
    parseNatList (padZeros w s) = parseNatList s := by
  unfold padZeros
  rw [parseNatList_append, parseNatList_replicate_zero]
  simp

lemma parseNatList_append_zeros (s : List Char) (k : Nat) :
    parseNatList (s ++ List.replicate k '0') = parseNatList s * 10 ^ k := by
  rw [parseNatList_append, parseNatList_replicate_zero, List.length_replicate]
  simp

lemma trimZeros_decomp (s : List Char) :
    ∃ k, s = trimZeros s ++ List.replicate k '0' := by
  obtain ⟨k, hk⟩ : ∃ k, List.takeWhile (fun c => c == '0') s.reverse
      = List.replicate k '0' :=
    ⟨_, List.eq_replicate_of_mem (fun b hb => by
      simpa using List.mem_takeWhile_imp hb)⟩
  refine ⟨k, ?_⟩
  conv_lhs => rw [← List.reverse_reverse s,
    ← List.takeWhile_append_dropWhile (p := fun c => c == '0') (l := s.reverse)]
  rw [List.reverse_append, hk, List.reverse_replicate]
  rfl

lemma mem_trimZeros {c : Char} {s : List Char} (h : c ∈ trimZeros s) : c ∈ s := by
  unfold trimZeros at h
  rw [List.mem_reverse] at h
  exact List.mem_reverse.mp ((List.dropWhile_sublist _).mem h)

lemma trimZeros_length_le (s : List Char) : (trimZeros s).length ≤ s.length := by
  obtain ⟨k, hk⟩ := trimZeros_decomp s
  conv_rhs => rw [hk]
  rw [List.length_append]
  omega

lemma toDigitsRev_lt : ∀ (fuel n d : Nat), d ∈ toDigitsRev fuel n → d < 10
  | 0, _, _, h => absurd h (List.not_mem_nil _)
  | fuel + 1, n, d, h => by
    unfold toDigitsRev at h
    by_cases hn : n = 0
    · rw [if_pos hn] at h
      exact absurd h (List.not_mem_nil _)
    · rw [if_neg hn] at h
      rcases List.mem_cons.mp h with rfl | h
      · exact Nat.mod_lt n (by norm_num)
      · exact toDigitsRev_lt fuel (n / 10) d h

lemma parse_toDigitsRev : ∀ (fuel n : Nat), n ≤ fuel →
    parseNatList ((toDigitsRev fuel n).map digitChar).reverse = n
  | 0, n, h => by
    have : n = 0 := Nat.le_zero.mp h
    subst this
    rfl
  | fuel + 1, n, h => by
    unfold toDigitsRev
    by_cases hn : n = 0
    · rw [if_pos hn]
      exact hn.symm
    · rw [if_neg hn]
      have hdivle : n / 10 ≤ fuel := by
        have := Nat.div_lt_self (Nat.pos_of_ne_zero hn) (by norm_num : (1:Nat) < 10)
        omega
      simp only [List.map_cons, List.reverse_cons]
      rw [parseNatList_append, parse_toDigitsRev fuel (n / 10) hdivle]
      have hmod : (digitChar (n % 10)).toNat = 48 + n % 10 :=
        digitChar_toNat (Nat.mod_lt n (by norm_num))
      show n / 10 * 10 ^ ([digitChar (n % 10)].length) + parseNatList [digitChar (n % 10)] = n
      have hone : parseNatList [digitChar (n % 10)] = n % 10 := by
        unfold parseNatList
        simp [hmod]
      rw [hone]
      simp only [List.length_cons, List.length_nil, pow_one]
      omega

lemma repr10_parse (n : Nat) : parseNatList (repr10 n) = n := by
  unfold repr10
  by_cases hn : n = 0
  · rw [if_pos hn, hn]
    rfl
  · rw [if_neg hn]
    exact parse_toDigitsRev n n le_rfl

lemma repr10_all_digits {n : Nat} {c : Char} (h : c ∈ repr10 n) : isDigit c = true := by
  unfold repr10 at h
  by_cases hn : n = 0
  · rw [if_pos hn] at h
    rcases List.mem_singleton.mp h with rfl
    decide
  · rw [if_neg hn] at h
    rw [List.mem_reverse] at h
    obtain ⟨d, hd, rfl⟩ := List.mem_map.mp h
    exact isDigit_digitChar (toDigitsRev_lt n n d hd)

lemma repr10_ne_nil (n : Nat) : repr10 n ≠ [] := by
  unfold repr10
  by_cases hn : n = 0
  · rw [if_pos hn]
    simp
  · rw [if_neg hn]
    obtain ⟨m, rfl⟩ : ∃ m, n = m + 1 := ⟨n - 1, by omega⟩
    unfold toDigitsRev
    rw [if_neg hn]
    simp

lemma toDigitsRev_length_le : ∀ (fuel n k : Nat), n ≤ fuel → n < 10 ^ k →
    (toDigitsRev fuel n).length ≤ k
  | 0, _, _, _, _ => by
    unfold toDigitsRev
    simp
  | fuel + 1, n, k, hle, hlt => by
    unfold toDigitsRev
    by_cases hn : n = 0
    · rw [if_pos hn]
      simp
    · rw [if_neg hn]
      obtain ⟨k', rfl⟩ : ∃ k', k = k' + 1 := by
        rcases k with _ | k'
        · simp at hlt
          omega
        · exact ⟨k', rfl⟩
      have h1 : n / 10 ≤ fuel := by
        have := Nat.div_lt_self (Nat.pos_of_ne_zero hn) (by norm_num : (1:Nat) < 10)
        omega
      have h2 : n / 10 < 10 ^ k' := by
        rw [Nat.div_lt_iff_lt_mul (by norm_num : 0 < 10)]
        calc n < 10 ^ (k' + 1) := hlt
          _ = 10 ^ k' * 10 := by ring
      have := toDigitsRev_length_le fuel (n / 10) k' h1 h2
      simp only [List.length_cons]
      omega

lemma repr10_length_le {n k : Nat} (hn : n ≠ 0) (h : n < 10 ^ k) :
    (repr10 n).length ≤ k := by
  unfold repr10
  rw [if_neg hn, List.length_reverse, List.length_map]
  exact toDigitsRev_length_le n n k le_rfl h

lemma stripPlus_of_digits {s : List Char} (h : ∀ c ∈ s, isDigit c = true) :
    stripPlus s = s := by
  cases s with
  | nil => rfl
  | cons c t =>
    show (if c = '+' then t else c :: t) = c :: t
    rw [if_neg (digit_ne_plus (h c (List.mem_cons_self c t)))]

lemma parseU128_digits {s : List Char} (h1 : s ≠ []) (h2 : ∀ c ∈ s, isDigit c = true)
    (h3 : parseNatList s < u128Bound) : parseU128 s = some (parseNatList s) := by
  unfold parseU128
  rw [stripPlus_of_digits h2, if_pos ⟨h1, List.all_eq_true.mpr h2, h3⟩]

lemma parseU128_repr10 {n : Nat} (h : n < u128Bound) : parseU128 (repr10 n) = some n := by
  rw [parseU128_digits (repr10_ne_nil n) (fun _ hc => repr10_all_digits hc)
    (by rw [repr10_parse]; exact h), repr10_parse]

lemma splitDot_cons (c : Char) (t : List Char) :
    splitDot (c :: t) = if c = '.' then [] :: splitDot t else
      match splitDot t with
      | [] => [[c]]
      | p :: ps => (c :: p) :: ps := rfl

lemma splitDot_no_dot {s : List Char} (h : ∀ c ∈ s, c ≠ '.') : splitDot s = [s] := by
  induction s with
  | nil => rfl
  | cons c t ih =>
    rw [splitDot_cons, if_neg (h c (List.mem_cons_self c t)),
      ih (fun x hx => h x (List.mem_cons_of_mem c hx))]

lemma splitDot_append {s : List Char} (t : List Char) (h : ∀ c ∈ s, c ≠ '.') :
    splitDot (s ++ '.' :: t) = s :: splitDot t := by
  induction s with
  | nil =>
    show splitDot ('.' :: t) = [] :: splitDot t
    rw [splitDot_cons, if_pos rfl]
  | cons c s' ih =>
    show splitDot (c :: (s' ++ '.' :: t)) = (c :: s') :: splitDot t
    rw [splitDot_cons, if_neg (h c (List.mem_cons_self c s')),
      ih (fun x hx => h x (List.mem_cons_of_mem c hx))]

lemma from_str_one {D : Nat} {s p0 : List Char} (hs : splitDot s = [p0]) :
    from_str D s = match parseU128 p0 with
      | none => some (Except.error (ParseErr.invalidInt p0))
      | some integer => (u128mul integer (FRACTIONAL D)).map fun w => Except.ok w := by
  unfold from_str
  rw [hs]

lemma from_str_two {D : Nat} {s p0 p1 : List Char} (hs : splitDot s = [p0, p1]) :
    from_str D s = match parseU128 p0 with
      | none => some (Except.error (ParseErr.invalidInt p0))
      | some integer =>
        if D < p1.length then some (Except.error (ParseErr.tooMany p1.length D))
        else match parseU128 p1 with
          | none => some (Except.error (ParseErr.invalidFrac p1))
          | some fractional =>
            (u128mul fractional (pow10 (D - p1.length))).map fun scaled =>
              match (u128CheckedMul integer (FRACTIONAL D)).bind
                  (fun i => u128CheckedAdd i scaled) with
              | none => Except.error ParseErr.overflow
              | some total => Except.ok total := by
  unfold from_str
  rw [hs]

lemma from_str_more {D : Nat} {s p0 p1 p2 : List Char} {ps : List (List Char)}
    (hs : splitDot s = p0 :: p1 :: p2 :: ps) :
    from_str D s = some (Except.error (ParseErr.invalidFormat s)) := by
  unfold from_str
  rw [hs]

-- ========== C6 ==========

/-- C6: parsing the Display formatting of any representable value yields the
value again: `from_str(to_string(x))` succeeds with the same atomics.  The
formatter prints the integer alone when the remainder is zero, otherwise
`integer.fraction` with the fraction zero-padded to `D` digits and trailing
zeros trimmed; the parser reverses this exactly. -/
theorem display_roundtrip (D a : Nat) (ha : a < u128Bound) :
    from_str D (to_string D a) = some (Except.ok a) := by
  have hq : a / FRACTIONAL D < u128Bound := lt_of_le_of_lt (Nat.div_le_self a _) ha
  have hInodot : ∀ c ∈ repr10 (a / FRACTIONAL D), c ≠ '.' :=
    fun _ hc => digit_ne_dot (repr10_all_digits hc)
  have hts : to_string D a = if a % FRACTIONAL D = 0 then repr10 (a / FRACTIONAL D)
      else repr10 (a / FRACTIONAL D) ++ '.' ::
        trimZeros (padZeros D (repr10 (a % FRACTIONAL D))) := rfl
  rw [hts]
  by_cases h0 : a % FRACTIONAL D = 0
  · rw [if_pos h0, from_str_one (splitDot_no_dot hInodot)]
    simp only [parseU128_repr10 hq]
    unfold u128mul
    rw [Nat.div_mul_cancel (Nat.dvd_of_mod_eq_zero h0), if_pos ha]
    rfl
  · rw [if_neg h0]
    set f := a % FRACTIONAL D with hf
    set T := trimZeros (padZeros D (repr10 f)) with hT
    have hflt : f < FRACTIONAL D := Nat.mod_lt a (FRACTIONAL_pos D)
    have hfa : f ≤ a := Nat.mod_le a _
    have hrlen : (repr10 f).length ≤ D := repr10_length_le h0 hflt
    have hPlen : (padZeros D (repr10 f)).length = D := by
      unfold padZeros
      rw [List.length_append, List.length_replicate]
      omega
    have hPparse : parseNatList (padZeros D (repr10 f)) = f := by
      rw [parseNatList_padZeros, repr10_parse]
    obtain ⟨k, hdecomp⟩ := trimZeros_decomp (padZeros D (repr10 f))
    rw [← hT] at hdecomp
    have hparseP : parseNatList T * 10 ^ k = f := by
      rw [← hPparse]
      conv_rhs => rw [hdecomp]
      rw [parseNatList_append_zeros]
    have hklen : T.length + k = D := by
      have hlen := congrArg List.length hdecomp
      rw [List.length_append, List.length_replicate] at hlen
      omega
    have hTne : T ≠ [] := by
      intro hnil
      have h00 : parseNatList ([] : List Char) = 0 := rfl
      rw [hnil, h00, Nat.zero_mul] at hparseP
      exact h0 hparseP.symm
    have hTdigits : ∀ c ∈ T, isDigit c = true := by
      intro c hc
      have hcP := mem_trimZeros hc
      unfold padZeros at hcP
      rcases List.mem_append.mp hcP with hrep | hmem
      · rw [List.eq_of_mem_replicate hrep]
        decide
      · exact repr10_all_digits hmem
    have hTnodot : ∀ c ∈ T, c ≠ '.' := fun c hc => digit_ne_dot (hTdigits c hc)
    have hg : parseNatList T < u128Bound := by
      have hle : parseNatList T ≤ parseNatList T * 10 ^ k :=
        Nat.le_mul_of_pos_right _ (Nat.pos_pow_of_pos k (by norm_num))
      omega
    have hsplit : splitDot (repr10 (a / FRACTIONAL D) ++ '.' :: T)
        = [repr10 (a / FRACTIONAL D), T] := by
      rw [splitDot_append T hInodot, splitDot_no_dot hTnodot]
    rw [from_str_two hsplit]
    simp only [parseU128_repr10 hq]
    rw [if_neg (by omega : ¬ D < T.length)]
    simp only [parseU128_digits hTne hTdigits hg]
    have hmulf : parseNatList T * pow10 (D - T.length) = f := by
      have hkeq : D - T.length = k := by omega
      rw [hkeq]
      exact hparseP
    unfold u128mul
    rw [hmulf, if_pos (lt_of_le_of_lt hfa ha)]
    simp only [Option.map_some']
    have hqF : a / FRACTIONAL D * FRACTIONAL D ≤ a := Nat.div_mul_le_self a _
    have hsum : a / FRACTIONAL D * FRACTIONAL D + f = a := by
      rw [mul_comm]
      exact Nat.div_add_mod a (FRACTIONAL D)
    unfold u128CheckedMul
    rw [if_pos (lt_of_le_of_lt hqF ha)]
    simp only [Option.some_bind]
    unfold u128CheckedAdd
    rw [hsum, if_pos ha]

/-- Witness for C6 at `D = 6`, `a = 1_500_000` (the value `1.5`). -/
theorem display_roundtrip_witness :
    from_str 6 (to_string 6 1500000) = some (Except.ok 1500000) :=
  display_roundtrip 6 1500000 (by decide)

-- ========== C1 ==========

lemma div_congr_cross {D1 D2 a1 a2 : Nat} (h : a1 * 10 ^ D2 = a2 * 10 ^ D1) :
    a1 / 10 ^ D1 = a2 / 10 ^ D2 := by
  have h1 : a1 * 10 ^ D2 / (10 ^ D1 * 10 ^ D2) = a1 / 10 ^ D1 :=
    Nat.mul_div_mul_right a1 (10 ^ D1) (Nat.pos_pow_of_pos D2 (by norm_num))
  rw [← h1, h, mul_comm (10 ^ D1) (10 ^ D2)]
  exact Nat.mul_div_mul_right a2 (10 ^ D2) (Nat.pos_pow_of_pos D1 (by norm_num))

lemma mod_congr_cross {D1 D2 a1 a2 : Nat} (h : a1 * 10 ^ D2 = a2 * 10 ^ D1) :
    (a1 % 10 ^ D1) * 10 ^ D2 = (a2 % 10 ^ D2) * 10 ^ D1 := by
  have h1 : a1 * 10 ^ D2 % (10 ^ D1 * 10 ^ D2) = a1 % 10 ^ D1 * 10 ^ D2 :=
    Nat.mul_mod_mul_right (10 ^ D2) a1 (10 ^ D1)
  have h2 : a2 * 10 ^ D1 % (10 ^ D2 * 10 ^ D1) = a2 % 10 ^ D2 * 10 ^ D1 :=
    Nat.mul_mod_mul_right (10 ^ D1) a2 (10 ^ D2)
  rw [← h1, ← h2, h, mul_comm (10 ^ D1) (10 ^ D2)]

lemma frac18_shift {D1 D2 : Nat} (h : D1 ≤ D2) (r : Nat) :
    frac18 D1 r = frac18 D2 (r * 10 ^ (D2 - D1)) := by
  unfold frac18 pow10
  by_cases h2 : 18 ≤ D1
  · rw [if_pos h2, if_pos (le_trans h2 h)]
    have hsplit : (10:Nat) ^ (D2 - 18) = 10 ^ (D2 - D1) * 10 ^ (D1 - 18) := by
      rw [← pow_add]
      congr 1
      omega
    rw [hsplit, mul_comm r (10 ^ (D2 - D1)),
      Nat.mul_div_mul_left r (10 ^ (D1 - 18))
        (Nat.pos_pow_of_pos (D2 - D1) (by norm_num))]
  · by_cases h3 : 18 ≤ D2
    · rw [if_neg h2, if_pos h3]
      have hsplit : (10:Nat) ^ (D2 - D1) = 10 ^ (D2 - 18) * 10 ^ (18 - D1) := by
        rw [← pow_add]
        congr 1
        omega
      have hassoc : r * (10 ^ (D2 - 18) * 10 ^ (18 - D1))
          = (r * 10 ^ (18 - D1)) * 10 ^ (D2 - 18) := by
        ring
      rw [hsplit, hassoc,
        Nat.mul_div_cancel _ (Nat.pos_pow_of_pos (D2 - 18) (by norm_num))]
    · rw [if_neg h2, if_neg h3, mul_assoc, ← pow_add]
      congr 2
      omega

lemma frac18_congr {D1 D2 r1 r2 : Nat} (h : r1 * 10 ^ D2 = r2 * 10 ^ D1) :
    frac18 D1 r1 = frac18 D2 r2 := by
  rcases le_total D1 D2 with hle | hle
  · have hr2 : r2 = r1 * 10 ^ (D2 - D1) := by
      have hp : (10:Nat) ^ D2 = 10 ^ (D2 - D1) * 10 ^ D1 := by
        rw [← pow_add]
        congr 1
        omega
      have h' := h
      rw [hp, ← mul_assoc] at h'
      exact (Nat.eq_of_mul_eq_mul_right (Nat.pos_pow_of_pos D1 (by norm_num)) h').symm
    rw [hr2]
    exact frac18_shift hle r1
  · have hr1 : r1 = r2 * 10 ^ (D1 - D2) := by
      have hp : (10:Nat) ^ D1 = 10 ^ (D1 - D2) * 10 ^ D2 := by
        rw [← pow_add]
        congr 1
        omega
      have h' := h.symm
      rw [hp, ← mul_assoc] at h'
      exact (Nat.eq_of_mul_eq_mul_right (Nat.pos_pow_of_pos D2 (by norm_num)) h').symm
    rw [hr1]
    exact (frac18_shift hle r2).symm

/-- C1: for any two precisions and any value exactly representable at both
(`a1 / 10^D1 = a2 / 10^D2` as exact rationals, i.e. `a1 * 10^D2 = a2 * 10^D1`),
the storage-codec serializations agree byte for byte. -/
theorem serialize_cross (D1 D2 a1 a2 : Nat) (ha1 : a1 < u128Bound)
    (ha2 : a2 < u128Bound) (h : a1 * 10 ^ D2 = a2 * 10 ^ D1) :
    serialize D1 a1 = serialize D2 a2 := by
  have hq := div_congr_cross h
  have hr := mod_congr_cross h
  have hiff : (a1 % 10 ^ D1 = 0) ↔ (a2 % 10 ^ D2 = 0) := by
    constructor <;> intro h0
    · have h2 := hr
      rw [h0, Nat.zero_mul] at h2
      rcases Nat.mul_eq_zero.mp h2.symm with h3 | h3
      · exact h3
      · exact absurd h3 (Nat.pos_pow_of_pos D1 (by norm_num)).ne'
    · have h2 := hr
      rw [h0, Nat.zero_mul] at h2
      rcases Nat.mul_eq_zero.mp h2 with h3 | h3
      · exact h3
      · exact absurd h3 (Nat.pos_pow_of_pos D2 (by norm_num)).ne'
  have hs1 : serialize D1 a1 = if a1 % 10 ^ D1 = 0 then repr10 (a1 / 10 ^ D1)
      else repr10 (a1 / 10 ^ D1) ++ '.' ::
        trimZeros (padZeros 18 (repr10 (frac18 D1 (a1 % 10 ^ D1)))) := rfl
  have hs2 : serialize D2 a2 = if a2 % 10 ^ D2 = 0 then repr10 (a2 / 10 ^ D2)
      else repr10 (a2 / 10 ^ D2) ++ '.' ::
        trimZeros (padZeros 18 (repr10 (frac18 D2 (a2 % 10 ^ D2)))) := rfl
  by_cases h0 : a1 % 10 ^ D1 = 0
  · rw [hs1, hs2, if_pos h0, if_pos (hiff.mp h0), hq]
  · rw [hs1, hs2, if_neg h0, if_neg (fun hc => h0 (hiff.mpr hc)), hq,
      frac18_congr hr]

/-- Witness for C1: `1.5` at precision 6 and at precision 9 serialize to the
same bytes. -/
theorem serialize_cross_witness : serialize 6 1500000 = serialize 9 1500000000 :=
  serialize_cross 6 9 1500000 1500000000 (by decide) (by decide) (by norm_num)

-- ========== C9 ==========

/-- C9 counterexample: the segment `"+1"` contains a sign character, yet
`from_str` succeeds (Rust's `u128` parser accepts one leading `'+'`), so
"any non-digit content fails with a parse error" is false as stated. -/
theorem from_str_plus_cex :
    from_str 6 ['+', '1'] = some (Except.ok 1000000) := rfl

/-- C9 (amended): `from_str` fails with a format error when the segment count
is not 1 or 2, with an error naming the offending segment when a segment does
not parse as a `u128` (in particular when, after an optional single leading
`'+'` accepted by Rust's unsigned parser, it is empty or contains a
non-digit), and with a too-many-decimal-places error when the fractional
segment is longer than `D`. -/
theorem from_str_errors (D : Nat) (s : List Char) :
    (∀ p0 p1 p2 ps, splitDot s = p0 :: p1 :: p2 :: ps →
      from_str D s = some (Except.error (ParseErr.invalidFormat s))) ∧
    (∀ p0, splitDot s = [p0] → parseU128 p0 = none →
      from_str D s = some (Except.error (ParseErr.invalidInt p0))) ∧
    (∀ p0 p1, splitDot s = [p0, p1] → parseU128 p0 = none →
      from_str D s = some (Except.error (ParseErr.invalidInt p0))) ∧
    (∀ p0 p1 n, splitDot s = [p0, p1] → parseU128 p0 = some n → D < p1.length →
      from_str D s = some (Except.error (ParseErr.tooMany p1.length D))) ∧
    (∀ p0 p1 n, splitDot s = [p0, p1] → parseU128 p0 = some n → ¬ D < p1.length →
      parseU128 p1 = none →
      from_str D s = some (Except.error (ParseErr.invalidFrac p1))) ∧
    (∀ p : List Char, stripPlus p = [] → parseU128 p = none) ∧
    (∀ p : List Char, (stripPlus p).all isDigit = false → parseU128 p = none) := by
  refine ⟨?_, ?_, ?_, ?_, ?_, ?_, ?_⟩
  · intro p0 p1 p2 ps hs
    exact from_str_more hs
  · intro p0 hs hp
    rw [from_str_one hs, hp]
  · intro p0 p1 hs hp
    rw [from_str_two hs, hp]
  · intro p0 p1 n hs hp hlen
    rw [from_str_two hs]
    simp only [hp]
    rw [if_pos hlen]
  · intro p0 p1 n hs hp hlen hfrac
    rw [from_str_two hs]
    simp only [hp]
    rw [if_neg hlen]
    simp only [hfrac]
  · intro p hsp
    unfold parseU128
    rw [hsp, if_neg (by simp)]
  · intro p hdig
    show (if stripPlus p ≠ [] ∧ (stripPlus p).all isDigit = true ∧
        parseNatList (stripPlus p) < u128Bound then
        some (parseNatList (stripPlus p)) else none) = none
    rw [hdig, if_neg (by simp)]

/-- Witness for C9's amended statement: `"1.2.3"` has three segments and fails
with the format error. -/
theorem from_str_errors_witness :
    from_str 6 ['1', '.', '2', '.', '3']
      = some (Except.error (ParseErr.invalidFormat ['1', '.', '2', '.', '3'])) :=
  (from_str_errors 6 ['1', '.', '2', '.', '3']).1 ['1'] ['2'] ['3'] [] rfl

-- ========== C4 ==========

/-- C4: parsing is not total — the integer-only branch computes
`integer * FRACTIONAL` with an unchecked multiply, so the decimal string of
`u128::MAX` makes both `from_str` and the storage-codec visitor overflow
(a panic under overflow checks, a silent wraparound otherwise) instead of
returning the recoverable overflow error used by the two-segment branch. -/
theorem parse_overflow_panics :
    from_str 6 (repr10 (2 ^ 128 - 1)) = none ∧
    visit_str 6 (repr10 (2 ^ 128 - 1)) = none := by
  constructor
  · rfl
  · rfl
